import Mathlib

/-!
Verification development for the thumbnail-conversion utility
(`src/src/imageutil.cpp`): a shallow embedding of its channel remapping,
mip-level selection, output-dimension computation, metadata stamping,
lock-file acquisition, sequence output naming and worker partitioning,
together with theorems settling the specification's claims about them.
C++ `float` arithmetic is modelled over `ℚ`; machine integers are modelled
by `Nat`/`Int` (no value in this program approaches an overflow boundary);
filesystem and decoder failures are injected through explicit flags.
-/

namespace ImageUtil

/-! ### Channel remapping (`ConvertImage`, lines 353-388)

The source initialises `channel_indices = {0, 0, 0, -1}` and runs one loop
over all channel names; each test overwrites its slot, so the last matching
channel wins.  `fill_values = {0.3f, 0.3f, 0.3f, 1.0f}`. -/

/-- Test for output-R: the source checks `name == "R" || name == "Y"`. -/
def isRName (n : String) : Bool := n = "R" || n = "Y"

/-- Test for output-G: `name == "G"`. -/
def isGName (n : String) : Bool := n = "G"

/-- Test for output-B: `name == "B"`. -/
def isBName (n : String) : Bool := n = "B"

/-- Test for output-A: `name == "A"`. -/
def isAName (n : String) : Bool := n = "A"

/-- State of the channel loop: the four entries of `channel_indices`. -/
structure ChanState where
  r : Int
  g : Int
  b : Int
  a : Int
deriving DecidableEq, Repr

/-- One iteration of the channel loop body (`for (int i = 0; i < spec.nchannels; i++)`). -/
def chanStep (st : ChanState) (i : Nat) (name : String) : ChanState :=
  { r := if isRName name then (i : Int) else st.r
    g := if isGName name then (i : Int) else st.g
    b := if isBName name then (i : Int) else st.b
    a := if isAName name then (i : Int) else st.a }

/-- The channel loop, iterating the index alongside the name list. -/
def chanFoldAux : List String → Nat → ChanState → ChanState
  | [], _, st => st
  | n :: ns, i, st => chanFoldAux ns (i + 1) (chanStep st i n)

/-- `channel_indices` as built by `ConvertImage`: start `{0, 0, 0, -1}`,
then run the loop over the source's channel names. -/
def channelIndices (names : List String) : List Int :=
  let st := chanFoldAux names 0 ⟨0, 0, 0, -1⟩
  [st.r, st.g, st.b, st.a]

/-- `fill_values = {0.3f, 0.3f, 0.3f, 1.0f}`, floats modelled as rationals. -/
def fillValues : List ℚ := [3/10, 3/10, 3/10, 1]

/-- Index of the first channel satisfying `p`, scanning from position `i`,
with default `d`.  This renders the claim's "first channel named ..." reading. -/
def firstIdxAux (p : String → Bool) : List String → Nat → Int → Int
  | [], _, d => d
  | n :: ns, i, d => if p n then (i : Int) else firstIdxAux p ns (i + 1) d

/-- The channel mapping as the claim words it: the first channel literally
named "R", "Y", "L" or "RY" goes to output-R, the first "G"/"B"/"A" to the
other outputs, defaults 0, 0, 0, -1. -/
def claimChannelIndices (names : List String) : List Int :=
  [ firstIdxAux (fun n => n = "R" || n = "Y" || n = "L" || n = "RY") names 0 0,
    firstIdxAux isGName names 0 0,
    firstIdxAux isBName names 0 0,
    firstIdxAux isAName names 0 (-1) ]

/-- Index (counted from the head) of the last element of the list satisfying
`p`, if any: a later match in the tail takes precedence over the head. -/
def lastMatchIdx {α : Type} (p : α → Bool) : List α → Option Nat
  | [] => none
  | x :: xs =>
    match lastMatchIdx p xs with
    | some j => some (j + 1)
    | none => if p x then some 0 else none

/-- Index of the last channel satisfying `p`, with default `d`. -/
def lastIdxD (p : String → Bool) (names : List String) (d : Int) : Int :=
  match lastMatchIdx p names with
  | some j => (j : Int)
  | none => d

/-- A single slot of the channel loop in isolation: repeatedly overwrite the
accumulator whenever the predicate holds. -/
def loopAssign (p : String → Bool) : List String → Nat → Int → Int
  | [], _, acc => acc
  | n :: ns, i, acc => loopAssign p ns (i + 1) (if p n then (i : Int) else acc)

/-! ### Mip-level selection (`ConvertImage`, lines 292-323)

The loop walks mip levels while `seek_subimage(0, miplevel)` succeeds; a
level whose width and height are both `>= size` becomes the best match when
it is the first match or strictly smaller than the current best in both
dimensions; `best_match_miplevel == -1` afterwards falls back to level 0. -/

/-- `spec.width >= size && spec.height >= size` for a level of dimensions `d`. -/
def qualifies (size : Int) (d : Nat × Nat) : Bool :=
  decide (size ≤ (d.1 : Int)) && decide (size ≤ (d.2 : Int))

/-- One iteration of the mip loop body; the state is
`some (best_match_miplevel, largest_spec.width, largest_spec.height)`
or `none` for `best_match_miplevel == -1`. -/
def mipStep (size : Int) (st : Option (Nat × Nat × Nat)) (i : Nat) (d : Nat × Nat) :
    Option (Nat × Nat × Nat) :=
  if qualifies size d then
    match st with
    | none => some (i, d.1, d.2)
    | some (b, w, h) =>
      if d.1 < w && d.2 < h then some (i, d.1, d.2) else some (b, w, h)
  else st

/-- The mip loop over the list of level dimensions, tracking `miplevel`. -/
def mipFoldAux (size : Int) : List (Nat × Nat) → Nat → Option (Nat × Nat × Nat) →
    Option (Nat × Nat × Nat)
  | [], _, st => st
  | d :: ls, i, st => mipFoldAux size ls (i + 1) (mipStep size st i d)

/-- `best_match_miplevel` after the loop, with the `-1 → 0` fallback. -/
def selectMip (levels : List (Nat × Nat)) (size : Int) : Nat :=
  match mipFoldAux size levels 0 none with
  | some (b, _, _) => b
  | none => 0

/-- Strict decrease in both dimensions: the ordering of a mip chain
(each level strictly smaller than every earlier one). -/
def mipDecr (a b : Nat × Nat) : Prop := b.1 < a.1 ∧ b.2 < a.2

/-! ### Output dimensions and output spec (`ConvertImage`, lines 403-455)

`size == -1` preserves the buffer dimensions; otherwise the aspect ratio of
the buffer scales the longer edge to `size` and derives the shorter edge,
with a C `(int)` cast (truncation toward zero).  Both dimensions are then
rounded up to the next even integer unconditionally. -/

/-- C `(int)` cast of a `float` value, modelled on `ℚ`: truncation toward zero. -/
def cTrunc (q : ℚ) : Int := Int.tdiv q.num (q.den : Int)

/-- `if (x % 2 != 0) x++`. -/
def roundUpEven (n : Int) : Int := if n % 2 = 0 then n else n + 1

/-- Output size computation (lines 403-430) from the effective size and the
current buffer dimensions. -/
def outDims (size : Int) (w h : Nat) : Int × Int :=
  let p : Int × Int :=
    if size = -1 then ((w : Int), (h : Int))
    else
      let mn : ℚ := min (w : ℚ) (h : ℚ)
      let mx : ℚ := max (w : ℚ) (h : ℚ)
      let aspect : ℚ := mx / mn
      if h < w then (size, cTrunc ((size : ℚ) / aspect))
      else (cTrunc ((size : ℚ) * aspect), size)
  (roundUpEven p.1, roundUpEven p.2)

/-- Pixel sample formats appearing in the program. -/
inductive Format where
  | UINT8
  | FLOAT
deriving DecidableEq, Repr

/-- The output `ImageSpec` (lines 436-455): an ROI of the computed output size
with 4 channels, `UINT8`, and the attributes set on the fresh spec. -/
structure OutSpec where
  width : Int
  height : Int
  nchannels : Nat
  format : Format
  writeFormat : Format
  attribs : List (String × String)
deriving DecidableEq, Repr

/-- Build the output spec exactly as lines 436-453 and 487-488 do: fresh
`ImageSpec(out_roi, UINT8)` (so no inherited attributes), then
`SourceByteSize` and `oiio:ColorSpace`, and `set_write_format(UINT8)`. -/
def mkOutSpec (ow oh : Int) (bsize : Nat) : OutSpec :=
  { width := ow
    height := oh
    nchannels := 4
    format := Format.UINT8
    writeFormat := Format.UINT8
    attribs := [("SourceByteSize", toString bsize), ("oiio:ColorSpace", "sRGB")] }

/-! ### The `ConvertImage` control flow (lines 248-512)

The source specification visible to the pure model: mip-level dimensions
(`seek_subimage(0, m)` succeeds exactly for `m < levels.length`), channel
names, subimage count, deep flag, the `oiio:ColorSpace` attribute (with
`"sRGB"` standing for absent-or-sRGB, the `get_string_attribute` default)
and the source file byte size (0 when `file_size` fails, as in the catch
block).  `RunCond` injects the success/failure of each fallible library or
filesystem call. -/

structure SourceSpec where
  levels : List (Nat × Nat)
  channelnames : List String
  nsubimages : Nat
  deep : Bool
  colorSpace : String
  byteSize : Nat
  format : Format
  extraAttribs : List (String × String)
deriving DecidableEq, Repr

structure RunCond where
  createOk : Bool
  validFile : Bool
  openOk : Bool
  openErr : Bool
  readOk : Bool
  resetOk : Bool
  shuffleOk : Bool
  flattenOk : Bool
  resizeOk : Bool
  colorOk : Bool
  outExists : Bool
  outNonEmpty : Bool
  writeOk : Bool
  removeOk : Bool
deriving DecidableEq, Repr

/-- The observable side-effecting calls of `ConvertImage`, in program order.
`closeHandle valid` records an `ImageInput::close` call and whether the
handle it goes through is non-null; `invalidateCache` is the decode-cache
invalidation the specification describes (OIIO `ImageCache::invalidate`). -/
inductive Effect where
  | closeHandle (valid : Bool)
  | emitError
  | emitProgress
  | readImage
  | resetSubimage
  | shuffleChannels
  | flattenDeep
  | resizeImage
  | copyImage
  | colorConvert
  | writeOutput
  | removeOutput
  | invalidateCache (path : String)
deriving DecidableEq, Repr

structure ConvertResult where
  code : Int
  effects : List Effect
  written : Option OutSpec
deriving DecidableEq, Repr

/-- Lines 283-285: the effective target size — a request of 0 becomes
`max(spec.width, spec.height)` of the mip-0 spec (the `size` variable is
mutated in place, so all later reads see this value). -/
def effSize (src : SourceSpec) (size0 : Int) : Int :=
  if size0 = 0 then
    ((max (src.levels.getD 0 (0, 0)).1 (src.levels.getD 0 (0, 0)).2 : Nat) : Int)
  else size0

/-- The dimensions of the mip level the conversion operates on. -/
def levelDims (src : SourceSpec) (size0 : Int) : Nat × Nat :=
  src.levels.getD (selectMip src.levels (effSize src size0)) (0, 0)

/-- Line 462: `size != 0 && (out_width != spec_.width || out_height !=
spec_.height)` — whether the resize (`ImageBufAlgo::fit`) path is taken
rather than the `out_buf.copy(buf_)` path. -/
@[reducible] def needsResize (src : SourceSpec) (size0 : Int) : Prop :=
  effSize src size0 ≠ 0 ∧
    ((outDims (effSize src size0) (levelDims src size0).1 (levelDims src size0).2).1 ≠
        ((levelDims src size0).1 : Int) ∨
      (outDims (effSize src size0) (levelDims src size0).1 (levelDims src size0).2).2 ≠
        ((levelDims src size0).2 : Int))

/-- The spec `out_buf` holds after `out_buf.copy(buf_)` (line 470):
`ImageBuf::copy` copies the pixels AND the spec/metadata of the source
buffer, so on this path the attributes stamped into `out_spec` are
discarded and the written file carries the dimensions of the selected mip
level, the shuffled 4-channel layout, the source buffer's native format and
the source's own extra attributes.  `set_write_format(UINT8)` (line 488)
still forces the written sample format. -/
def copiedSpec (src : SourceSpec) (size0 : Int) : OutSpec :=
  { width := ((levelDims src size0).1 : Int)
    height := ((levelDims src size0).2 : Int)
    nchannels := 4
    format := src.format
    writeFormat := Format.UINT8
    attribs := src.extraAttribs }

/-- `ImageBufAlgo::colorconvert` records the target color space in the
destination's metadata when it succeeds. -/
def setColorSpace (attribs : List (String × String)) : List (String × String) :=
  attribs.filter (fun a => a.1 != "oiio:ColorSpace") ++ [("oiio:ColorSpace", "sRGB")]

/-- The spec actually written on a successful conversion: the stamped
`out_spec` when the resize path is taken (`ImageBufAlgo::fit` keeps the
destination's spec), the source buffer's spec when `out_buf.copy(buf_)`
replaces it (line 470), with `colorconvert`'s color-space note applied when
a color conversion runs and succeeds (lines 473-484). -/
def writtenSpec (src : SourceSpec) (size0 : Int) (c : RunCond) : OutSpec :=
  let od := outDims (effSize src size0) (levelDims src size0).1 (levelDims src size0).2
  let os := if needsResize src size0 then mkOutSpec od.1 od.2 src.byteSize
            else copiedSpec src size0
  if src.colorSpace ≠ "sRGB" ∧ c.colorOk = true then
    { os with attribs := setColorSpace os.attribs }
  else os

/-- Lines 486-508: the write call, the post-write integrity check with
malformed-file removal, and the write-failure check.  `pre` holds the
effects accumulated so far and `os` the output spec being written. -/
def writePhase (pre : List Effect) (os : OutSpec) (c : RunCond) : ConvertResult :=
  let pre5 := pre ++ [Effect.writeOutput]
  -- lines 491-503: output missing or zero-length after the write
  if c.outExists = false ∨ c.outNonEmpty = false then
    if c.removeOk = false then
      { code := 1,
        effects := pre5 ++ [Effect.emitError, Effect.removeOutput, Effect.emitError],
        written := none }
    else
      { code := 1, effects := pre5 ++ [Effect.emitError, Effect.removeOutput],
        written := none }
  -- lines 505-508: write-call failure
  else if c.writeOk = false then
    { code := 1, effects := pre5 ++ [Effect.emitError], written := none }
  else
    { code := 0, effects := pre5, written := some os }

/-- Lines 329-484: the pixel pipeline after a successful open — ImageBuf
read, middle-subimage reset, channel shuffle, deep flatten (non-fatal),
output-spec construction, resize, color conversion (non-fatal). -/
def pixelPhase (src : SourceSpec) (size0 : Int) (c : RunCond) : ConvertResult :=
  -- lines 283-323: the effective size and mip selection feeding this phase
  -- live in `effSize`/`levelDims`/`needsResize`/`writtenSpec`
  -- lines 329-333: ImageBuf read
  if c.readOk = false then
    { code := 1, effects := [Effect.readImage, Effect.emitError], written := none }
  else
    -- lines 336-351: middle-subimage selection for multi-frame sources
    let bestSub := if 1 < src.nsubimages then src.nsubimages / 2 else 0
    if bestSub ≠ 0 ∧ c.resetOk = false then
      { code := 1, effects := [Effect.readImage, Effect.resetSubimage, Effect.emitError],
        written := none }
    else
      let pre0 := Effect.readImage :: (if bestSub ≠ 0 then [Effect.resetSubimage] else [])
      -- lines 383-388: channel shuffle (4 target channels)
      if c.shuffleOk = false then
        { code := 1, effects := pre0 ++ [Effect.shuffleChannels, Effect.emitError],
          written := none }
      else
        let pre1 := pre0 ++ [Effect.shuffleChannels]
        -- lines 394-401: deep flatten, non-fatal on failure
        let pre2 := if src.deep then
            pre1 ++ [Effect.flattenDeep] ++
              (if c.flattenOk = false then [Effect.emitError] else [])
          else pre1
        -- lines 403-455: output dimensions and output spec (`out_spec` is
        -- stamped here; on the copy path below it is later discarded)
        -- line 462: resize needed?
        if needsResize src size0 ∧ c.resizeOk = false then
          { code := 1, effects := pre2 ++ [Effect.resizeImage, Effect.emitError],
            written := none }
        else
          -- lines 462-471: fit into the stamped out_spec, or copy the source
          -- buffer (replacing out_buf's spec and metadata, line 470)
          let pre3 := pre2 ++
            (if needsResize src size0 then [Effect.resizeImage] else [Effect.copyImage])
          -- lines 473-484: color conversion, non-fatal on failure
          let pre4 := if src.colorSpace ≠ "sRGB" then
              pre3 ++ [Effect.colorConvert] ++
                (if c.colorOk = false then [Effect.emitError] else [])
            else pre3
          writePhase pre4 (writtenSpec src size0 c) c

/-- `ConvertImage(input, output, size, threads, verbose)` (lines 248-512),
with library/filesystem outcomes injected through `c`. -/
def convertImage (src : SourceSpec) (size0 : Int) (c : RunCond) : ConvertResult :=
  -- lines 251-259: ImageInput::create, with `_in->close()` on the null branch
  if c.createOk = false then
    { code := 1, effects := [Effect.closeHandle false, Effect.emitError], written := none }
  -- lines 261-267: valid_file check (the handle is non-null here)
  else if c.validFile = false then
    { code := 1, effects := [Effect.closeHandle true, Effect.emitError], written := none }
  -- lines 270-277: ImageInput::open null or error state; close through `in`
  else if c.openOk = false then
    { code := 1, effects := [Effect.closeHandle false, Effect.emitError], written := none }
  else if c.openErr = true then
    { code := 1, effects := [Effect.closeHandle true, Effect.emitError], written := none }
  else
    pixelPhase src size0 c

/-- A run condition in which every fallible call succeeds. -/
def allOk : RunCond :=
  { createOk := true, validFile := true, openOk := true, openErr := false,
    readOk := true, resetOk := true, shuffleOk := true, flattenOk := true,
    resizeOk := true, colorOk := true, outExists := true, outNonEmpty := true,
    writeOk := true, removeOk := true }

/-- A plain single-mip RGB source used for concrete evaluations, carrying
its own metadata. -/
def sampleSrc : SourceSpec :=
  { levels := [(8, 8)], channelnames := ["R", "G", "B"], nsubimages := 1,
    deep := false, colorSpace := "sRGB", byteSize := 100,
    format := Format.FLOAT, extraAttribs := [("Software", "blender")] }

/-- A two-mip-level source used for concrete evaluations. -/
def mipSrc : SourceSpec :=
  { levels := [(8, 8), (4, 4)], channelnames := ["R", "G", "B"], nsubimages := 1,
    deep := false, colorSpace := "sRGB", byteSize := 50,
    format := Format.FLOAT, extraAttribs := [] }

/-- An odd-dimensioned single-mip source: with size -1 the even-rounding
makes the output dimensions differ from the buffer's, so the resize path is
taken. -/
def oddSrc : SourceSpec :=
  { levels := [(7, 7)], channelnames := ["R", "G", "B"], nsubimages := 1,
    deep := false, colorSpace := "sRGB", byteSize := 77,
    format := Format.FLOAT, extraAttribs := [] }

/-! ### Lock files (`CreateLockFile`, lines 179-222)

Time is modelled in seconds; `duration_cast<minutes>(..).count()` is
division by 60.  The state is the lock marker's modification time, or
`none` when no marker exists; `createOk` models `lockFile.is_open()`. -/

/-- `CreateLockFile`: returns the boolean result and the marker state after
the call.  A fresh marker (fewer than 5 whole minutes old) blocks and is
left untouched; an old one is removed and re-created. -/
def createLockFile (marker : Option Nat) (now : Nat) (createOk : Bool) :
    Bool × Option Nat :=
  match marker with
  | some t =>
    if 5 ≤ (now - t) / 60 then
      if createOk then (true, some now) else (false, none)
    else (false, some t)
  | none => if createOk then (true, some now) else (false, none)

/-! ### Sequence conversion (`ConvertSequence`, lines 556-713)

Output naming: the output stem is stripped of a trailing run matching
`[-_\.\s]*$` and each discovered input at position `index` maps to
`<base>.<index><extension>`.  Work is split into
`min(threads == 0 ? hardware_concurrency : threads, n)` contiguous chunks,
chunk `t` of size `n / a` plus one when `t < n % a`. -/

/-- The character class of the trailing-strip regex `[-_\.\s]*$`
(ECMAScript `\s` on ASCII input). -/
def isStripChar (c : Char) : Bool :=
  c = '-' || c = '_' || c = '.' || c = ' ' || c = '\t' || c = '\n' ||
  c = '\r' || c = '\x0b' || c = '\x0c'

/-- `std::regex_replace(stem, L"[-_\.\s]*$", L"")`: remove the trailing run
of separators, dots and whitespace. -/
def stripTrailing (s : String) : String :=
  ⟨(s.data.reverse.dropWhile isStripChar).reverse⟩

/-- Line 626-627: the output file name for the item at `index` (the part of
the path after the output parent directory). -/
def outputName (base ext : String) (index : Nat) : String :=
  base ++ "." ++ toString index ++ ext

/-- Lines 664-671: chunk bounds produced by the partition loop, given
`q = n / a`, `r = n % a`, the current worker number `t`, the running
`start`, and the number of workers left. -/
def chunksFrom (q r : Nat) : Nat → Nat → Nat → List (Nat × Nat)
  | _, _, 0 => []
  | t, start, c + 1 =>
    let e := start + q + (if t < r then 1 else 0)
    (start, e) :: chunksFrom q r (t + 1) e c

/-- The `[start, end)` pairs handed to the `a` workers over `n` inputs. -/
def chunkBounds (n a : Nat) : List (Nat × Nat) := chunksFrom (n / a) (n % a) 0 0 a

/-- Lines 657-661: the effective worker count. -/
def actualThreads (threadsArg hw n : Nat) : Nat :=
  min (if threadsArg = 0 then hw else threadsArg) n

/-- The input indices covered by a list of `[start, end)` chunks, in order. -/
def coveredIndices (cs : List (Nat × Nat)) : List Nat :=
  (cs.map (fun p => List.range' p.1 (p.2 - p.1))).flatten

/-- The outputs one worker attempts for its chunk (lines 623-655): one per
index in `[start, end)`, named positionally. -/
def chunkOutputs (base ext : String) (p : Nat × Nat) : List String :=
  (List.range' p.1 (p.2 - p.1)).map (outputName base ext)

/-- All outputs of `ConvertSequence` over `n` discovered inputs with `a`
workers, in worker/chunk order. -/
def sequenceOutputs (stem ext : String) (n a : Nat) : List String :=
  ((chunkBounds n a).map (chunkOutputs (stripTrailing stem) ext)).flatten

instance : DecidableRel mipDecr := fun a b => by unfold mipDecr; infer_instance

/-- The stamped-metadata shape the specification describes: three provenance
attributes (source byte size, source path, conversion timestamp) plus the
forced ColorSpace attribute — four attributes in all. -/
def claimStampedAttribs (attribs : List (String × String)) : Prop :=
  attribs.length = 4 ∧ ("oiio:ColorSpace", "sRGB") ∈ attribs

/-! ### Helper lemmas -/

theorem chanFoldAux_eq (ns : List String) (i : Nat) (st : ChanState) :
    chanFoldAux ns i st =
      ⟨loopAssign isRName ns i st.r, loopAssign isGName ns i st.g,
       loopAssign isBName ns i st.b, loopAssign isAName ns i st.a⟩ := by
  induction ns generalizing i st with
  | nil => rfl
  | cons n tl ih => simp [chanFoldAux, loopAssign, chanStep, ih]

theorem loopAssign_eq (p : String → Bool) (ns : List String) (i : Nat) (acc : Int) :
    loopAssign p ns i acc =
      match lastMatchIdx p ns with
      | some j => ((i + j : Nat) : Int)
      | none => acc := by
  induction ns generalizing i acc with
  | nil => rfl
  | cons n tl ih =>
    simp only [loopAssign, lastMatchIdx]
    rw [ih]
    cases h : lastMatchIdx p tl with
    | some j =>
      simp only []
      push_cast
      ring
    | none =>
      cases hp : p n <;> simp [hp]

theorem loopAssign_zero (p : String → Bool) (ns : List String) (d : Int) :
    loopAssign p ns 0 d = lastIdxD p ns d := by
  rw [loopAssign_eq]
  unfold lastIdxD
  cases lastMatchIdx p ns <;> simp

theorem mipFoldAux_some (size : Int) (ls : List (Nat × Nat)) :
    ∀ (i b w h : Nat), List.Pairwise mipDecr ls →
      (∀ d ∈ ls, d.1 < w ∧ d.2 < h) →
      mipFoldAux size ls i (some (b, w, h)) =
        match lastMatchIdx (qualifies size) ls with
        | some k => some (i + k, (ls.getD k (0, 0)).1, (ls.getD k (0, 0)).2)
        | none => some (b, w, h) := by
  induction ls with
  | nil => intro i b w h _ _; rfl
  | cons x rest ih =>
    intro i b w h hpw hlt
    have hxw : x.1 < w ∧ x.2 < h := hlt x (List.mem_cons_self _ _)
    have hrestw : ∀ d ∈ rest, d.1 < w ∧ d.2 < h :=
      fun d hd => hlt d (List.mem_cons_of_mem _ hd)
    have hx : ∀ y ∈ rest, mipDecr x y := (List.pairwise_cons.mp hpw).1
    have hrest : List.Pairwise mipDecr rest := (List.pairwise_cons.mp hpw).2
    simp only [mipFoldAux, mipStep]
    by_cases hq : qualifies size x = true
    · rw [if_pos hq]
      have hupd : (decide (x.1 < w) && decide (x.2 < h)) = true := by
        simp [hxw.1, hxw.2]
      rw [if_pos hupd]
      rw [ih (i + 1) i x.1 x.2 hrest (fun d hd => hx d hd)]
      simp only [lastMatchIdx, hq]
      cases hrl : lastMatchIdx (qualifies size) rest with
      | some j => simp [hrl, List.getD_cons_succ]; omega
      | none => simp [hrl, hq, List.getD_cons_zero]
    · rw [if_neg hq]
      rw [ih (i + 1) b w h hrest hrestw]
      simp only [lastMatchIdx]
      cases hrl : lastMatchIdx (qualifies size) rest with
      | some j => simp [hrl, List.getD_cons_succ]; omega
      | none => simp [hrl, hq]

theorem mipFoldAux_none (size : Int) (ls : List (Nat × Nat)) :
    ∀ (i : Nat), List.Pairwise mipDecr ls →
      mipFoldAux size ls i none =
        match lastMatchIdx (qualifies size) ls with
        | some k => some (i + k, (ls.getD k (0, 0)).1, (ls.getD k (0, 0)).2)
        | none => none := by
  induction ls with
  | nil => intro i _; rfl
  | cons x rest ih =>
    intro i hpw
    have hx : ∀ y ∈ rest, mipDecr x y := (List.pairwise_cons.mp hpw).1
    have hrest : List.Pairwise mipDecr rest := (List.pairwise_cons.mp hpw).2
    simp only [mipFoldAux, mipStep]
    by_cases hq : qualifies size x = true
    · rw [if_pos hq]
      rw [mipFoldAux_some size rest (i + 1) i x.1 x.2 hrest (fun d hd => hx d hd)]
      simp only [lastMatchIdx]
      cases hrl : lastMatchIdx (qualifies size) rest with
      | some j => simp [hrl, List.getD_cons_succ]; omega
      | none => simp [hrl, hq, List.getD_cons_zero]
    · rw [if_neg hq]
      rw [ih (i + 1) hrest]
      simp only [lastMatchIdx]
      cases hrl : lastMatchIdx (qualifies size) rest with
      | some j => simp [hrl, List.getD_cons_succ]; omega
      | none => simp [hrl, hq]

theorem selectMip_eq (levels : List (Nat × Nat)) (size : Int)
    (hp : List.Pairwise mipDecr levels) :
    selectMip levels size = (lastMatchIdx (qualifies size) levels).getD 0 := by
  unfold selectMip
  rw [mipFoldAux_none size levels 0 hp]
  cases lastMatchIdx (qualifies size) levels <;> simp

theorem lastMatchIdx_lt {α : Type} (p : α → Bool) :
    ∀ (l : List α) (k : Nat), lastMatchIdx p l = some k → k < l.length := by
  intro l
  induction l with
  | nil => intro k h; simp [lastMatchIdx] at h
  | cons x xs ih =>
    intro k h
    simp only [lastMatchIdx] at h
    cases hx : lastMatchIdx p xs with
    | some j =>
      rw [hx] at h
      simp only [Option.some.injEq] at h
      have := ih j hx
      simp [← h]
      omega
    | none =>
      rw [hx] at h
      by_cases hp : p x = true
      · rw [if_pos hp] at h
        simp only [Option.some.injEq] at h
        simp [← h]
      · rw [if_neg hp] at h
        exact absurd h (by simp)

theorem lastMatchIdx_getD {α : Type} (p : α → Bool) (d : α) :
    ∀ (l : List α) (k : Nat), lastMatchIdx p l = some k → p (l.getD k d) = true := by
  intro l
  induction l with
  | nil => intro k h; simp [lastMatchIdx] at h
  | cons x xs ih =>
    intro k h
    simp only [lastMatchIdx] at h
    cases hx : lastMatchIdx p xs with
    | some j =>
      rw [hx] at h
      simp only [Option.some.injEq] at h
      rw [← h, List.getD_cons_succ]
      exact ih j hx
    | none =>
      rw [hx] at h
      by_cases hp : p x = true
      · rw [if_pos hp] at h
        simp only [Option.some.injEq] at h
        rw [← h, List.getD_cons_zero]
        exact hp
      · rw [if_neg hp] at h
        exact absurd h (by simp)

theorem lastMatchIdx_none_getD {α : Type} (p : α → Bool) (d : α) :
    ∀ (l : List α), lastMatchIdx p l = none →
      ∀ j, j < l.length → p (l.getD j d) = false := by
  intro l
  induction l with
  | nil => intro _ j hj; simp at hj
  | cons x xs ih =>
    intro h j hj
    simp only [lastMatchIdx] at h
    cases hx : lastMatchIdx p xs with
    | some j' => rw [hx] at h; simp at h
    | none =>
      rw [hx] at h
      by_cases hp : p x = true
      · rw [if_pos hp] at h; simp at h
      · cases j with
        | zero => simpa using hp
        | succ j' =>
          rw [List.getD_cons_succ]
          exact ih hx j' (by simpa using hj)

theorem lastMatchIdx_last {α : Type} (p : α → Bool) (d : α) :
    ∀ (l : List α) (k j : Nat), lastMatchIdx p l = some k →
      j < l.length → p (l.getD j d) = true → j ≤ k := by
  intro l
  induction l with
  | nil => intro k j h; simp [lastMatchIdx] at h
  | cons x xs ih =>
    intro k j h hj hpj
    simp only [lastMatchIdx] at h
    cases hx : lastMatchIdx p xs with
    | some j' =>
      rw [hx] at h
      simp only [Option.some.injEq] at h
      cases j with
      | zero => omega
      | succ j'' =>
        rw [List.getD_cons_succ] at hpj
        have := ih j' j'' hx (by simpa using hj) hpj
        omega
    | none =>
      rw [hx] at h
      by_cases hp : p x = true
      · rw [if_pos hp] at h
        simp only [Option.some.injEq] at h
        cases j with
        | zero => omega
        | succ j'' =>
          rw [List.getD_cons_succ] at hpj
          have := lastMatchIdx_none_getD p d xs hx j'' (by simpa using hj)
          rw [hpj] at this
          exact absurd this (by simp)
      · rw [if_neg hp] at h
        exact absurd h (by simp)

theorem lastMatchIdx_isSome {α : Type} (p : α → Bool) (d : α) (l : List α)
    (hex : ∃ x ∈ l, p x = true) : ∃ k, lastMatchIdx p l = some k := by
  cases hx : lastMatchIdx p l with
  | some k => exact ⟨k, rfl⟩
  | none =>
    obtain ⟨x, hmem, hpx⟩ := hex
    obtain ⟨n, hn, hgetn⟩ := List.getElem_of_mem hmem
    have := lastMatchIdx_none_getD p d l hx n hn
    rw [List.getD_eq_getElem l d hn, hgetn, hpx] at this
    exact absurd this (by simp)

theorem pairwise_getD_le (levels : List (Nat × Nat))
    (hp : List.Pairwise mipDecr levels) (j k : Nat)
    (hk : k < levels.length) (hjk : j ≤ k) :
    (levels.getD k (0, 0)).1 ≤ (levels.getD j (0, 0)).1 ∧
    (levels.getD k (0, 0)).2 ≤ (levels.getD j (0, 0)).2 := by
  rcases Nat.lt_or_ge j k with hlt | hge
  · have hj : j < levels.length := lt_trans hlt hk
    have hrel := (List.pairwise_iff_getElem.mp hp) j k hj hk hlt
    rw [List.getD_eq_getElem levels (0, 0) hk, List.getD_eq_getElem levels (0, 0) hj]
    exact ⟨le_of_lt hrel.1, le_of_lt hrel.2⟩
  · have : j = k := le_antisymm hjk hge
    subst this
    exact ⟨le_refl _, le_refl _⟩

theorem chunksFrom_length (q r : Nat) :
    ∀ (c t start : Nat), (chunksFrom q r t start c).length = c := by
  intro c
  induction c with
  | zero => intro t start; rfl
  | succ c ih => intro t start; simp [chunksFrom, ih]

theorem chunksFrom_cover (q r : Nat) :
    ∀ (c t start : Nat),
      coveredIndices (chunksFrom q r t start c) =
        List.range' start (c * q + (min r (t + c) - min r t)) := by
  intro c
  induction c with
  | zero => intro t start; simp [chunksFrom, coveredIndices]
  | succ c ih =>
    intro t start
    simp only [chunksFrom, coveredIndices, List.map_cons, List.flatten_cons]
    have hrest := ih (t + 1) (start + q + (if t < r then 1 else 0))
    simp only [coveredIndices] at hrest
    rw [hrest]
    have harith : start + (q + (if t < r then 1 else 0)) =
        start + 1 * (q + (if t < r then 1 else 0)) := by ring
    have happ := List.range'_append start (q + (if t < r then 1 else 0))
      (c * q + (min r (t + 1 + c) - min r (t + 1))) 1
    simp only [one_mul] at happ
    have hsz : start + q + (if t < r then 1 else 0) - start =
        q + (if t < r then 1 else 0) := by omega
    rw [hsz, show start + q + (if t < r then 1 else 0) =
      start + (q + (if t < r then 1 else 0)) by omega, happ]
    congr 1
    have hqq : (c + 1) * q = c * q + q := by ring
    rw [hqq]
    by_cases ht : t < r
    · rw [if_pos ht]; omega
    · rw [if_neg ht]; omega

theorem chunkBounds_cover (n a : Nat) (ha : 0 < a) :
    coveredIndices (chunkBounds n a) = List.range n := by
  unfold chunkBounds
  rw [chunksFrom_cover]
  rw [List.range_eq_range']
  congr 1
  have hmod : n % a < a := Nat.mod_lt n ha
  have hdm := Nat.div_add_mod n a
  omega

theorem sequenceOutputs_eq (stem ext : String) (n a : Nat) :
    sequenceOutputs stem ext n a =
      (coveredIndices (chunkBounds n a)).map (outputName (stripTrailing stem) ext) := by
  unfold sequenceOutputs coveredIndices chunkOutputs
  rw [List.map_flatten]
  rw [List.map_map]
  rfl

theorem roundUpEven_even (n : Int) : Even (roundUpEven n) := by
  unfold roundUpEven
  rcases Int.emod_two_eq n with h | h
  · rw [if_pos h]
    exact Int.even_iff.mpr h
  · rw [if_neg (by omega)]
    rw [Int.even_iff]
    omega

theorem outDims_even (size : Int) (w h : Nat) :
    Even (outDims size w h).1 ∧ Even (outDims size w h).2 := by
  unfold outDims
  exact ⟨roundUpEven_even _, roundUpEven_even _⟩

theorem qualifies_neg_one (d : Nat × Nat) : qualifies (-1) d = true := by
  unfold qualifies
  have h1 : (-1 : Int) ≤ (d.1 : Int) := le_trans (by norm_num) (Int.natCast_nonneg _)
  have h2 : (-1 : Int) ≤ (d.2 : Int) := le_trans (by norm_num) (Int.natCast_nonneg _)
  simp [h1, h2]

theorem selectMip_single (d : Nat × Nat) : selectMip [d] (-1) = 0 := by
  unfold selectMip mipFoldAux
  rw [show mipStep (-1) none 0 d = some (0, d.1, d.2) by
    unfold mipStep; rw [if_pos (qualifies_neg_one d)]]
  rfl

theorem outDims_neg_one (w h : Nat) :
    outDims (-1) w h = (roundUpEven (w : Int), roundUpEven (h : Int)) := by
  unfold outDims
  rw [if_pos rfl]

theorem lastMatchIdx_eq_none {α : Type} (p : α → Bool) :
    ∀ (l : List α), (∀ x ∈ l, p x = false) → lastMatchIdx p l = none := by
  intro l
  induction l with
  | nil => intro _; rfl
  | cons x xs ih =>
    intro h
    have h1 : lastMatchIdx p xs = none :=
      ih (fun y hy => h y (List.mem_cons_of_mem _ hy))
    have h2 : p x = false := h x (List.mem_cons_self _ _)
    simp [lastMatchIdx, h1, h2]

theorem writePhase_written (pre : List Effect) (os : OutSpec) (c : RunCond)
    (os' : OutSpec) (h : (writePhase pre os c).written = some os') : os' = os := by
  unfold writePhase at h
  repeat' (first | split at h | dsimp only at h)
  all_goals simp_all

set_option maxHeartbeats 3200000 in
theorem pixelPhase_written (src : SourceSpec) (size0 : Int) (c : RunCond)
    (os : OutSpec) (h : (pixelPhase src size0 c).written = some os) :
    os = writtenSpec src size0 c := by
  unfold pixelPhase at h
  repeat' (first | split at h | dsimp only at h)
  all_goals first
    | exact writePhase_written _ _ _ _ h
    | simp_all

theorem convertImage_written (src : SourceSpec) (size0 : Int) (c : RunCond)
    (os : OutSpec) (h : (convertImage src size0 c).written = some os) :
    os = writtenSpec src size0 c := by
  unfold convertImage at h
  repeat' (first | split at h | dsimp only at h)
  all_goals first
    | exact pixelPhase_written _ _ _ _ h
    | simp_all

theorem mipFoldAux_zero (size : Int) :
    ∀ (ls : List (Nat × Nat)) (i b : Nat),
      mipFoldAux size ls i (some (b, 0, 0)) = some (b, 0, 0) := by
  intro ls
  induction ls with
  | nil => intro i b; rfl
  | cons x rest ih =>
    intro i b
    have hstep : mipStep size (some (b, 0, 0)) i x = some (b, 0, 0) := by
      unfold mipStep
      split <;> simp
    rw [mipFoldAux, hstep, ih]

theorem levelDims_of_effSize_zero (src : SourceSpec) (size0 : Int)
    (h : effSize src size0 = 0) : levelDims src size0 = (0, 0) := by
  have hd0 : src.levels.getD 0 (0, 0) = (0, 0) := by
    unfold effSize at h
    by_cases h0 : size0 = 0
    · rw [if_pos h0] at h
      have hmax : Nat.max (src.levels.getD 0 (0, 0)).1 (src.levels.getD 0 (0, 0)).2 = 0 :=
        Nat.cast_eq_zero.mp h
      have h1 : (src.levels.getD 0 (0, 0)).1 = 0 := by omega
      have h2 : (src.levels.getD 0 (0, 0)).2 = 0 := by omega
      rw [Prod.ext_iff]
      exact ⟨h1, h2⟩
    · rw [if_neg h0] at h
      exact absurd h h0
  unfold levelDims
  rw [h]
  cases hl : src.levels with
  | nil => rfl
  | cons a rest =>
    rw [hl] at hd0
    rw [List.getD_cons_zero] at hd0
    subst hd0
    have hsel : selectMip ((0, 0) :: rest) 0 = 0 := by
      unfold selectMip mipFoldAux
      rw [show mipStep 0 none 0 ((0 : Nat), (0 : Nat)) = some (0, 0, 0) from by decide]
      rw [mipFoldAux_zero]
    rw [hsel]
    rfl

theorem setColorSpace_stamped (bsize : Nat) :
    setColorSpace [("SourceByteSize", toString bsize), ("oiio:ColorSpace", "sRGB")] =
      [("SourceByteSize", toString bsize), ("oiio:ColorSpace", "sRGB")] := by
  unfold setColorSpace
  rw [List.filter_cons, List.filter_cons, List.filter_nil]
  have h1 : (("SourceByteSize", toString bsize).1 != "oiio:ColorSpace") = true :=
    show (("SourceByteSize" : String) != "oiio:ColorSpace") = true by decide
  have h2 : ((("oiio:ColorSpace", "sRGB") : String × String).1 != "oiio:ColorSpace") = false := by
    decide
  rw [h1, h2]
  rfl

theorem writtenSpec_dims (src : SourceSpec) (size0 : Int) (c : RunCond) :
    (writtenSpec src size0 c).width =
      (if needsResize src size0 then
        (outDims (effSize src size0) (levelDims src size0).1 (levelDims src size0).2).1
       else ((levelDims src size0).1 : Int)) ∧
    (writtenSpec src size0 c).height =
      (if needsResize src size0 then
        (outDims (effSize src size0) (levelDims src size0).1 (levelDims src size0).2).2
       else ((levelDims src size0).2 : Int)) := by
  unfold writtenSpec
  dsimp only
  by_cases hr : needsResize src size0
  · rw [if_pos hr, if_pos hr, if_pos hr]
    by_cases hc : src.colorSpace ≠ "sRGB" ∧ c.colorOk = true
    · rw [if_pos hc]
      exact ⟨rfl, rfl⟩
    · rw [if_neg hc]
      exact ⟨rfl, rfl⟩
  · rw [if_neg hr, if_neg hr, if_neg hr]
    by_cases hc : src.colorSpace ≠ "sRGB" ∧ c.colorOk = true
    · rw [if_pos hc]
      exact ⟨rfl, rfl⟩
    · rw [if_neg hc]
      exact ⟨rfl, rfl⟩

theorem writtenSpec_nchannels (src : SourceSpec) (size0 : Int) (c : RunCond) :
    (writtenSpec src size0 c).nchannels = 4 := by
  unfold writtenSpec
  dsimp only
  by_cases hr : needsResize src size0
  · rw [if_pos hr]
    by_cases hc : src.colorSpace ≠ "sRGB" ∧ c.colorOk = true
    · rw [if_pos hc]
      rfl
    · rw [if_neg hc]
      rfl
  · rw [if_neg hr]
    by_cases hc : src.colorSpace ≠ "sRGB" ∧ c.colorOk = true
    · rw [if_pos hc]
      rfl
    · rw [if_neg hc]
      rfl

theorem writtenSpec_writeFormat (src : SourceSpec) (size0 : Int) (c : RunCond) :
    (writtenSpec src size0 c).writeFormat = Format.UINT8 := by
  unfold writtenSpec
  dsimp only
  by_cases hr : needsResize src size0
  · rw [if_pos hr]
    by_cases hc : src.colorSpace ≠ "sRGB" ∧ c.colorOk = true
    · rw [if_pos hc]
      rfl
    · rw [if_neg hc]
      rfl
  · rw [if_neg hr]
    by_cases hc : src.colorSpace ≠ "sRGB" ∧ c.colorOk = true
    · rw [if_pos hc]
      rfl
    · rw [if_neg hc]
      rfl

theorem writtenSpec_even (src : SourceSpec) (size0 : Int) (c : RunCond) :
    Even (writtenSpec src size0 c).width ∧ Even (writtenSpec src size0 c).height := by
  have hd := writtenSpec_dims src size0 c
  by_cases hr : needsResize src size0
  · rw [hd.1, hd.2, if_pos hr, if_pos hr]
    exact outDims_even _ _ _
  · rw [hd.1, hd.2, if_neg hr, if_neg hr]
    by_cases hz : effSize src size0 = 0
    · rw [levelDims_of_effSize_zero src size0 hz]
      exact ⟨by simp, by simp⟩
    · unfold needsResize at hr
      push_neg at hr
      obtain ⟨h1, h2⟩ := hr hz
      rw [← h1, ← h2]
      exact outDims_even _ _ _

/-! ### Claim theorems -/

/-- C1 (counterexample): the claim's mapping — assign each output the FIRST
channel named "R"/"Y"/"L"/"RY" (resp. "G", "B", "A") — disagrees with the
code on `["Y", "R"]` (the loop overwrites, so the LAST of "R"/"Y" wins:
the code yields output-R = 1, the claim says 0) and on `["X", "L"]` (the
code never tests for "L", yielding the default 0 where the claim says 1). -/
theorem channel_mapping_counterexample :
    channelIndices ["Y", "R"] ≠ claimChannelIndices ["Y", "R"] ∧
    channelIndices ["X", "L"] ≠ claimChannelIndices ["X", "L"] := by
  refine ⟨by decide, by decide⟩

/-- C1 (amended): the channel remapping assigns output-R the LAST channel
named "R" or "Y" ("L" and "RY" are not recognised), output-G the last "G",
output-B the last "B", output-A the last "A"; unassigned outputs default to
index 0 for R/G/B and to not-present (-1) for A; the fill constants are
0.3 for R/G/B and 1.0 for A.  The `["Y", "A"]` scenario of the claim holds:
R = G = B = index(Y) = 0 and A = index(A) = 1. -/
theorem channel_mapping_amended :
    (∀ names : List String,
      channelIndices names =
        [lastIdxD isRName names 0, lastIdxD isGName names 0,
         lastIdxD isBName names 0, lastIdxD isAName names (-1)]) ∧
    channelIndices ["Y", "A"] = [0, 0, 0, 1] ∧
    fillValues = [3/10, 3/10, 3/10, 1] := by
  refine ⟨fun names => ?_, by decide, rfl⟩
  simp only [channelIndices, chanFoldAux_eq, loopAssign_zero]

/-- C2 (counterexample): on the clamped non-square chain
16x4, 8x2, 4x1, 2x1, 1x1 with target size 1, the walk stalls: the update
at line 304 requires BOTH dimensions to shrink strictly
(`spec.width < largest_spec.width && spec.height < largest_spec.height`),
so once the height stops shrinking at 1 no later level replaces the best
match.  The code selects level 2 (4x1) although level 4 (1x1) also
qualifies and is strictly smaller — not the tightest fit the claim
requires. -/
theorem mip_selection_counterexample :
    selectMip [(16, 4), (8, 2), (4, 1), (2, 1), (1, 1)] 1 = 2 ∧
    qualifies 1 ([(16, 4), (8, 2), (4, 1), (2, 1), (1, 1)].getD 4 (0, 0)) = true ∧
    ¬ (([(16, 4), (8, 2), (4, 1), (2, 1), (1, 1)].getD
          (selectMip [(16, 4), (8, 2), (4, 1), (2, 1), (1, 1)] 1) (0, 0)).1 ≤
        ([(16, 4), (8, 2), (4, 1), (2, 1), (1, 1)].getD 4 (0, 0)).1) := by
  refine ⟨by decide, by decide, by decide⟩

/-- C2 (amended): on mip chains whose levels strictly decrease in BOTH
dimensions, `ConvertImage` selects, among the levels with width and height
at least the target size, the one with the smallest dimensions (tightest
fit at or above the target); on chains where one dimension stops shrinking
(clamped at 1 for non-square sources) the strict-both-dimensions update can
stall on a non-minimal level.  When no level qualifies it falls back to
mip level 0. -/
theorem mip_selection_tightest_fit (levels : List (Nat × Nat)) (size : Int)
    (hp : List.Pairwise mipDecr levels) :
    ((∃ d ∈ levels, qualifies size d = true) →
      selectMip levels size < levels.length ∧
      qualifies size (levels.getD (selectMip levels size) (0, 0)) = true ∧
      (∀ j, j < levels.length → qualifies size (levels.getD j (0, 0)) = true →
        (levels.getD (selectMip levels size) (0, 0)).1 ≤ (levels.getD j (0, 0)).1 ∧
        (levels.getD (selectMip levels size) (0, 0)).2 ≤ (levels.getD j (0, 0)).2)) ∧
    ((∀ d ∈ levels, qualifies size d = false) → selectMip levels size = 0) := by
  constructor
  · intro hex
    obtain ⟨k, hk⟩ := lastMatchIdx_isSome (qualifies size) (0, 0) levels hex
    have hsel : selectMip levels size = k := by
      rw [selectMip_eq levels size hp, hk]
      rfl
    rw [hsel]
    refine ⟨lastMatchIdx_lt _ _ _ hk, lastMatchIdx_getD _ _ _ _ hk, ?_⟩
    intro j hj hqj
    exact pairwise_getD_le levels hp j k (lastMatchIdx_lt _ _ _ hk)
      (lastMatchIdx_last _ _ _ _ _ hk hj hqj)
  · intro hnone
    rw [selectMip_eq levels size hp, lastMatchIdx_eq_none _ _ hnone]
    rfl

/-- C2 (witness): on the chain 8x8, 4x4, 2x2 with target 3, the selected
level qualifies, and its dimensions are minimal among qualifying levels. -/
theorem mip_selection_tightest_fit_witness :
    selectMip [(8, 8), (4, 4), (2, 2)] 3 < ([(8, 8), (4, 4), (2, 2)] : List (Nat × Nat)).length ∧
    qualifies 3 ([(8, 8), (4, 4), (2, 2)].getD (selectMip [(8, 8), (4, 4), (2, 2)] 3) (0, 0)) = true ∧
    (∀ j, j < ([(8, 8), (4, 4), (2, 2)] : List (Nat × Nat)).length →
      qualifies 3 ([(8, 8), (4, 4), (2, 2)].getD j (0, 0)) = true →
      ([(8, 8), (4, 4), (2, 2)].getD (selectMip [(8, 8), (4, 4), (2, 2)] 3) (0, 0)).1 ≤
        ([(8, 8), (4, 4), (2, 2)].getD j (0, 0)).1 ∧
      ([(8, 8), (4, 4), (2, 2)].getD (selectMip [(8, 8), (4, 4), (2, 2)] 3) (0, 0)).2 ≤
        ([(8, 8), (4, 4), (2, 2)].getD j (0, 0)).2) :=
  (mip_selection_tightest_fit [(8, 8), (4, 4), (2, 2)] 3 (by decide)).1
    ⟨(4, 4), by decide, by decide⟩

/-- C3 (counterexample): on a source with mip levels 8x8 and 4x4, `convert`
with target size -1 writes a 4x4 output, not the 8x8 the claim requires:
with size -1 every level satisfies `width >= size && height >= size`, so the
mip walk moves off level 0, and "-1 preserves mip-0 dimensions" fails
(8 and 8 are already even, so rounding plays no role here; the copy path is
taken, so the written spec is the copied source-buffer spec). -/
theorem preserve_mode_counterexample :
    (convertImage mipSrc (-1) allOk).written = some (copiedSpec mipSrc (-1)) ∧
    (copiedSpec mipSrc (-1)).width = 4 ∧ ((4 : Int) ≠ 8) := by
  refine ⟨by decide, by decide, by decide⟩

/-- C3 (amended): every written output has even width and height in every
mode; with target size -1 and a source reporting a single mip level, the
output dimensions equal the mip-0 dimensions rounded up to the next even
integer.  For sources with several mip levels, size -1 makes every level
pass the `>= size` test, so the walk may settle on a smaller level and the
output need not have the mip-0 dimensions. -/
theorem preserve_mode_dims_amended :
    (∀ (src : SourceSpec) (size : Int) (c : RunCond) (os : OutSpec),
      (convertImage src size c).written = some os →
      Even os.width ∧ Even os.height) ∧
    (∀ (w h : Nat) (src : SourceSpec) (c : RunCond) (os : OutSpec),
      src.levels = [(w, h)] →
      (convertImage src (-1) c).written = some os →
      os.width = roundUpEven (w : Int) ∧ os.height = roundUpEven (h : Int)) := by
  constructor
  · intro src size c os hw
    rw [convertImage_written src size c os hw]
    exact writtenSpec_even src size c
  · intro w h src c os hlev hw
    rw [convertImage_written src (-1) c os hw]
    have hsize : effSize src (-1) = -1 := by
      unfold effSize
      rw [if_neg (by norm_num)]
    have hdims : levelDims src (-1) = (w, h) := by
      unfold levelDims
      rw [hsize, hlev, selectMip_single]
      rfl
    have hod : outDims (effSize src (-1)) (levelDims src (-1)).1 (levelDims src (-1)).2 =
        (roundUpEven (w : Int), roundUpEven (h : Int)) := by
      rw [hsize, hdims, outDims_neg_one]
    have hd := writtenSpec_dims src (-1) c
    by_cases hr : needsResize src (-1)
    · rw [hd.1, hd.2, if_pos hr, if_pos hr, hod]
      exact ⟨rfl, rfl⟩
    · rw [hd.1, hd.2, if_neg hr, if_neg hr, hdims]
      have hnz : effSize src (-1) ≠ 0 := by
        rw [hsize]
        norm_num
      unfold needsResize at hr
      push_neg at hr
      obtain ⟨h1, h2⟩ := hr hnz
      rw [hod, hdims] at h1 h2
      exact ⟨h1.symm, h2.symm⟩

/-- C3 (witness): a single-level 8x8 source converted with size -1 (a
no-resize copy-path run) yields the mip-0 dimensions rounded up to even,
and they are even. -/
theorem preserve_mode_dims_witness :
    ((copiedSpec sampleSrc (-1)).width = roundUpEven ((8 : Nat) : Int) ∧
      (copiedSpec sampleSrc (-1)).height = roundUpEven ((8 : Nat) : Int)) ∧
    (Even (copiedSpec sampleSrc (-1)).width ∧ Even (copiedSpec sampleSrc (-1)).height) :=
  ⟨preserve_mode_dims_amended.2 8 8 sampleSrc allOk (copiedSpec sampleSrc (-1)) rfl (by decide),
   preserve_mode_dims_amended.1 sampleSrc (-1) allOk (copiedSpec sampleSrc (-1)) (by decide)⟩

/-- C4 (counterexample): a successful conversion taking the resize path
(a 7x7 source rounded up to 8x8 under size -1) stamps only two attributes
(`SourceByteSize` and the forced `oiio:ColorSpace`); the claim's three
provenance attributes plus ColorSpace (four in all) are refuted — no
source path and no timestamp are written anywhere in the program. -/
theorem metadata_stamp_counterexample :
    (convertImage oddSrc (-1) allOk).written = some (mkOutSpec 8 8 77) ∧
    ¬ claimStampedAttribs (mkOutSpec 8 8 77).attribs := by
  refine ⟨by decide, ?_⟩
  unfold claimStampedAttribs
  decide

/-- C4 (amended): every successful conversion forces the written sample
format to 8-bit unsigned.  When the resize path is taken, the output's
metadata block holds exactly two attributes — the source byte size as a
decimal string and the forced `ColorSpace=sRGB` — in an 8-bit-unsigned
spec.  When the no-resize copy path is taken, `out_buf.copy(buf_)`
(line 470) replaces the output spec with the source buffer's, so for a
source already in sRGB (no color conversion runs) the written metadata is
the source's own extra attributes in the source's native format: the
stamped attributes are discarded on that path. -/
theorem metadata_stamp_amended (src : SourceSpec) (size : Int) (c : RunCond)
    (os : OutSpec) (h : (convertImage src size c).written = some os) :
    os.writeFormat = Format.UINT8 ∧
    (needsResize src size →
      os.attribs = [("SourceByteSize", toString src.byteSize), ("oiio:ColorSpace", "sRGB")] ∧
      os.format = Format.UINT8) ∧
    (¬ needsResize src size → src.colorSpace = "sRGB" →
      os.attribs = src.extraAttribs ∧ os.format = src.format) := by
  rw [convertImage_written src size c os h]
  refine ⟨writtenSpec_writeFormat src size c, fun hr => ?_, fun hr hsrgb => ?_⟩
  · unfold writtenSpec
    dsimp only
    rw [if_pos hr]
    by_cases hc : src.colorSpace ≠ "sRGB" ∧ c.colorOk = true
    · rw [if_pos hc]
      exact ⟨setColorSpace_stamped src.byteSize, rfl⟩
    · rw [if_neg hc]
      exact ⟨rfl, rfl⟩
  · unfold writtenSpec
    dsimp only
    rw [if_neg hr]
    have hc : ¬ (src.colorSpace ≠ "sRGB" ∧ c.colorOk = true) := fun hcc => hcc.1 hsrgb
    rw [if_neg hc]
    exact ⟨rfl, rfl⟩

/-- C4 (witness): the resize-path sample conversion (a 7x7 source rounded
up to 8x8 under size -1) writes UINT8 and exactly the byte-size and
ColorSpace attributes. -/
theorem metadata_stamp_witness :
    (mkOutSpec 8 8 77).writeFormat = Format.UINT8 ∧
    ((mkOutSpec 8 8 77).attribs =
      [("SourceByteSize", toString (77 : Nat)), ("oiio:ColorSpace", "sRGB")] ∧
     (mkOutSpec 8 8 77).format = Format.UINT8) := by
  have hthm := metadata_stamp_amended oddSrc (-1) allOk (mkOutSpec 8 8 77) (by decide)
  exact ⟨hthm.1, hthm.2.1 (by decide)⟩

/-- C5: `CreateLockFile` returns false and leaves the marker untouched when
a marker under 5 minutes old exists; deletes and re-creates the marker
(returning true) when it is over 5 minutes old; and creates the marker
(returning true) when none exists.  Times are in seconds; the source's
`duration_cast<minutes>` is division by 60. -/
theorem lock_acquire_spec (t now : Nat) :
    (now - t < 300 → createLockFile (some t) now true = (false, some t)) ∧
    (300 < now - t → createLockFile (some t) now true = (true, some now)) ∧
    createLockFile none now true = (true, some now) := by
  refine ⟨fun h => ?_, fun h => ?_, rfl⟩
  · have hlt : ¬ 5 ≤ (now - t) / 60 := by omega
    simp [createLockFile, hlt]
  · have hge : 5 ≤ (now - t) / 60 := by omega
    simp [createLockFile, hge]

/-- C5 (witness): a 100-second-old marker blocks acquisition unchanged; a
400-second-old marker is reclaimed and re-created. -/
theorem lock_acquire_spec_witness :
    createLockFile (some 0) 100 true = (false, some 0) ∧
    createLockFile (some 0) 400 true = (true, some 400) :=
  ⟨(lock_acquire_spec 0 100).1 (by norm_num), (lock_acquire_spec 0 400).2.1 (by norm_num)⟩

/-- C6: over `n` discovered inputs, `ConvertSequence` attempts exactly `n`
outputs; the output for the item at position `i` is named
`<base>.<i><ext>`, where `<base>` is the output stem with the trailing
`[-_\.\s]*` run stripped — the index is positional, not the frame number. -/
theorem sequence_output_names (stem ext : String) (n a : Nat) (ha : 0 < a) :
    (sequenceOutputs stem ext n a).length = n ∧
    ∀ i, i < n → (sequenceOutputs stem ext n a).getD i "" =
      stripTrailing stem ++ "." ++ toString i ++ ext := by
  rw [sequenceOutputs_eq stem ext n a, chunkBounds_cover n a ha]
  constructor
  · simp
  · intro i hi
    have hlen : i < (List.map (outputName (stripTrailing stem) ext) (List.range n)).length := by
      simpa using hi
    rw [List.getD_eq_getElem _ _ hlen, List.getElem_map, List.getElem_range]
    rfl

/-- C6 (witness): two inputs, one worker, stem `thumb._`: outputs are
`thumb.0.png` and `thumb.1.png`. -/
theorem sequence_output_names_witness :
    (sequenceOutputs "thumb._" ".png" 2 1).length = 2 ∧
    ∀ i, i < 2 → (sequenceOutputs "thumb._" ".png" 2 1).getD i "" =
      stripTrailing "thumb._" ++ "." ++ toString i ++ ".png" :=
  sequence_output_names "thumb._" ".png" 2 1 (by norm_num)

/-- C7: with `n` discovered inputs and a thread hint `threadsArg` (0 meaning
the hardware concurrency hint `hw`), `ConvertSequence` runs
`min(threadsArg == 0 ? hw : threadsArg, n)` workers over contiguous chunks
(sizes `n / a` plus one for the first `n % a` chunks) that together cover
every input index in `[0, n)` exactly once, in order. -/
theorem worker_partition (n threadsArg hw : Nat) (hn : 0 < n)
    (hth : 0 < (if threadsArg = 0 then hw else threadsArg)) :
    0 < actualThreads threadsArg hw n ∧
    (chunkBounds n (actualThreads threadsArg hw n)).length = actualThreads threadsArg hw n ∧
    coveredIndices (chunkBounds n (actualThreads threadsArg hw n)) = List.range n := by
  have ha : 0 < actualThreads threadsArg hw n := by
    unfold actualThreads
    exact lt_min hth hn
  exact ⟨ha, chunksFrom_length _ _ _ _ _, chunkBounds_cover n _ ha⟩

/-- C7 (witness): 5 inputs, thread hint 0, hardware hint 2: two chunks that
cover 0..4 exactly once. -/
theorem worker_partition_witness :
    0 < actualThreads 0 2 5 ∧
    (chunkBounds 5 (actualThreads 0 2 5)).length = actualThreads 0 2 5 ∧
    coveredIndices (chunkBounds 5 (actualThreads 0 2 5)) = List.range 5 :=
  worker_partition 5 0 2 (by norm_num) (by norm_num)

/-- C8 (counterexample): a successful single-file conversion returns without
any decode-cache invalidation for the input or the output path — refuting
the claim that cache entries for both paths are invalidated on every exit
path. -/
theorem cache_invalidation_counterexample :
    (convertImage sampleSrc (-1) allOk).code = 0 ∧
    Effect.invalidateCache "in.exr" ∉ (convertImage sampleSrc (-1) allOk).effects ∧
    Effect.invalidateCache "out.png" ∉ (convertImage sampleSrc (-1) allOk).effects := by
  refine ⟨by decide, by decide, by decide⟩

set_option maxHeartbeats 3200000 in
/-- C8 (amended): `ConvertImage` performs no decode-cache invalidation on
any exit path, success or failure — neither the input nor the output path's
cache entries are ever touched (the program's only cache interaction is the
singleton creation and configuration in `CreateCache`). -/
theorem no_cache_invalidation_amended (src : SourceSpec) (size : Int) (c : RunCond)
    (p : String) : Effect.invalidateCache p ∉ (convertImage src size c).effects := by
  have hwrite : ∀ (pre : List Effect) (os : OutSpec) (c' : RunCond),
      Effect.invalidateCache p ∉ pre →
      Effect.invalidateCache p ∉ (writePhase pre os c').effects := by
    intro pre os c' hpre
    unfold writePhase
    repeat' split
    all_goals simp_all
  have hpixel : Effect.invalidateCache p ∉ (pixelPhase src size c).effects := by
    unfold pixelPhase
    repeat' (first | split | dsimp only)
    all_goals first
      | (apply hwrite; simp_all)
      | simp_all
  unfold convertImage
  repeat' split
  all_goals first
    | exact hpixel
    | simp_all

/-- C9 (code_bug): when `ImageInput::create` returns null (line 253) or
`ImageInput::open` returns null (line 271), the failure branch immediately
calls `close()` through the null handle (`if (!_in) { if (!_in->close()) ...`)
— an access through an invalid handle, contradicting the claim that failure
paths close the handle with no access through an invalid handle. -/
theorem open_failure_null_close :
    Effect.closeHandle false ∈
      (convertImage sampleSrc 0
        { allOk with createOk := false }).effects ∧
    Effect.closeHandle false ∈
      (convertImage sampleSrc 0
        { allOk with openOk := false }).effects := by
  refine ⟨by decide, by decide⟩

/-- C10: the channel shuffle is always requested with exactly 4 target
channels; when the source has no channel named "A" the alpha slot is the
not-present sentinel `-1` with fill value 1.0 (fully opaque), so the
3-channel case of the data model never occurs; and every written output
spec has exactly 4 channels. -/
theorem four_channel_invariant :
    (∀ names : List String, (channelIndices names).length = 4) ∧
    (∀ names : List String, "A" ∉ names →
      (channelIndices names).getD 3 0 = -1 ∧ fillValues.getD 3 0 = 1) ∧
    (∀ (src : SourceSpec) (size : Int) (c : RunCond) (os : OutSpec),
      (convertImage src size c).written = some os → os.nchannels = 4) := by
  refine ⟨fun names => rfl, fun names hA => ?_, fun src size c os h => ?_⟩
  · constructor
    · have hlast : (channelIndices names).getD 3 0 = lastIdxD isAName names (-1) := by
        simp [channelIndices, chanFoldAux_eq, loopAssign_zero]
      rw [hlast]
      unfold lastIdxD
      rw [lastMatchIdx_eq_none isAName names ?hall]
      case hall =>
        intro x hx
        simp only [isAName, decide_eq_false_iff_not]
        intro hEq
        exact hA (hEq ▸ hx)
    · rfl
  · rw [convertImage_written src size c os h]
    exact writtenSpec_nchannels src size c

/-- C10 (witness): a luminance-only source (no "A" channel) gets the
sentinel alpha index -1 with fill 1, and the sample output has 4 channels. -/
theorem four_channel_invariant_witness :
    ((channelIndices ["Y"]).getD 3 0 = -1 ∧ fillValues.getD 3 0 = 1) ∧
    (copiedSpec sampleSrc (-1)).nchannels = 4 :=
  ⟨four_channel_invariant.2.1 ["Y"] (by decide),
   four_channel_invariant.2.2 sampleSrc (-1) allOk (copiedSpec sampleSrc (-1)) (by decide)⟩

end ImageUtil
